import Mathlib

/-!
Verification of the structure codec (basicstructure.py) and the database
loader (database.py) of the odxtools repository, as a shallow embedding.

Bytes are modelled as lists of naturals, Python dictionaries as ordered
association lists with Python insertion semantics (replace in place,
append when the key is new), and exceptions as the error case of Except.
The parameter subtypes live outside the excerpted sources; they are
modelled from the spec as a record of the interface the codec consumes
(get_static_bit_length, encode_into_pdu, decode_from_pdu, positions and
a semantic kind tag).
-/

abbrev Bytes := List Nat

inductive ParamValue where
  | nat : Nat → ParamValue
  | bytes : Bytes → ParamValue
  | str : String → ParamValue
  | dict : List (String × ParamValue) → ParamValue

abbrev ParamValues := List (String × ParamValue)

/-- Python dict assignment: replace the value in place if the key exists,
otherwise append the new binding at the end. -/
def dictInsert (m : ParamValues) (k : String) (v : ParamValue) : ParamValues :=
  match m with
  | [] => [(k, v)]
  | (k1, v1) :: rest =>
      if k1 = k then (k, v) :: rest else (k1, v1) :: dictInsert rest k v

/-- Python dict lookup on the ordered association list. -/
def lookupAssoc (m : ParamValues) (k : String) : Option ParamValue :=
  match m with
  | [] => none
  | (k1, v1) :: rest => if k1 = k then some v1 else lookupAssoc rest k

/-- Modelled from the spec: the semantic kind tag of a parameter subtype
(the isinstance checks of basicstructure.py dispatch on these classes). -/
inductive ParamKind where
  | codedConst | nrcConst | matchingRequest | physicalConstant
  | lengthKey | tableKey | valueParam
deriving DecidableEq

/-- Modelled from the spec: the transient per-encode-call state
(encodestate.py is not part of the excerpt; fields are those the codec
reads and writes). -/
structure EncodeState where
  coded_message : Bytes
  parameter_values : ParamValues
  triggering_request : Option Bytes
  is_end_of_pdu : Bool

/-- Modelled from the spec: the transient per-decode-call state
(decodestate.py is not part of the excerpt). -/
structure DecodeState where
  coded_message : Bytes
  parameter_values : ParamValues
  cursor_position : Nat

/-- Modelled from the spec: the interface contract of a parameter that the
codec consumes; the parameter catalog itself is an excluded collaborator.
get_static_bit_length is the parameter's statically known bit size, if any. -/
structure Parameter where
  short_name : String
  byte_position : Option Nat
  bit_position : Option Nat
  get_static_bit_length : Option Nat
  kind : ParamKind
  encode_into_pdu : EncodeState → Bytes
  decode_from_pdu : DecodeState → ParamValue × Nat

/-- BasicStructure of basicstructure.py: an ordered parameter list plus an
optional explicit byte size (short_name comes from the ComplexDop base). -/
structure BasicStructure where
  short_name : String
  parameters : List Parameter
  byte_size : Option Nat

inductive OdxError where
  | encodeError | decodeError | typeError | valueError | assertionError
deriving DecidableEq

/-- Loop of BasicStructure.get_static_bit_length: walk the parameters
keeping a bit cursor and the running maximum, then round up to bytes. -/
def staticLengthLoop : List Parameter → Nat → Nat → Option Nat
  | [], _, length => some (((length + 7) / 8) * 8)
  | p :: rest, cursor, length =>
      match p.get_static_bit_length with
      | none => none
      | some pbl =>
          let cursor1 :=
            match p.byte_position with
            | some bp => bp * 8 + p.bit_position.getD 0
            | none => cursor
          let cursor2 := cursor1 + pbl
          staticLengthLoop rest cursor2 (max length cursor2)

/-- BasicStructure.get_static_bit_length; note that the explicit-size
branch is guarded by Python truthiness (if self.byte_size:), so an
explicit byte size of 0 falls through to the parameter walk. -/
def BasicStructure.get_static_bit_length (s : BasicStructure) : Option Nat :=
  match s.byte_size with
  | some bs => if bs ≠ 0 then some (8 * bs) else staticLengthLoop s.parameters 0 0
  | none => staticLengthLoop s.parameters 0 0

/-- Modelled from the spec: a DOP-backed value parameter of a fixed byte
width; encoding appends the bytes looked up under its name (a missing or
non-byte value encodes as zero padding, a case excluded by the validity
hypotheses), decoding reads width bytes at the cursor. -/
def valueParameter (name : String) (width : Nat) : Parameter where
  short_name := name
  byte_position := none
  bit_position := none
  get_static_bit_length := some (8 * width)
  kind := ParamKind.valueParam
  encode_into_pdu := fun st =>
    match lookupAssoc st.parameter_values name with
    | some (ParamValue.bytes bs) => st.coded_message ++ bs
    | _ => st.coded_message ++ List.replicate width 0
  decode_from_pdu := fun st =>
    (ParamValue.bytes ((st.coded_message.drop st.cursor_position).take width),
      st.cursor_position + width)

/-- Fold a byte value big-endian, as a coded constant decodes to an int. -/
def bytesToNat (bs : Bytes) : Nat := bs.foldl (fun a b => a * 256 + b) 0

/-- Modelled from the spec: a coded-constant parameter; its fixed byte
string is appended on encode (the supplied values are ignored: the
parameter is not settable) and read back as an integer on decode. -/
def codedConstParameter (name : String) (constBytes : Bytes) : Parameter where
  short_name := name
  byte_position := none
  bit_position := none
  get_static_bit_length := some (8 * constBytes.length)
  kind := ParamKind.codedConst
  encode_into_pdu := fun st => st.coded_message ++ constBytes
  decode_from_pdu := fun st =>
    (ParamValue.nat (bytesToNat ((st.coded_message.drop st.cursor_position).take constBytes.length)),
      st.cursor_position + constBytes.length)

/-- The four constant-like parameter classes tested by the isinstance
check in BasicStructure.coded_const_prefix. -/
def isConstKind : ParamKind → Bool
  | ParamKind.codedConst => true
  | ParamKind.nrcConst => true
  | ParamKind.matchingRequest => true
  | ParamKind.physicalConstant => true
  | _ => false

/-- The two derived-key parameter classes re-encoded by the second pass of
BasicStructure.convert_physical_to_internal. -/
def isKeyKind : ParamKind → Bool
  | ParamKind.lengthKey => true
  | ParamKind.tableKey => true
  | _ => false

/-- Loop of BasicStructure.coded_const_prefix: encode parameters in order,
breaking at the first one that is not constant-like. -/
def prefixLoop : List Parameter → EncodeState → EncodeState
  | [], st => st
  | p :: rest, st =>
      if isConstKind p.kind then
        prefixLoop rest { st with coded_message := p.encode_into_pdu st }
      else st

/-- BasicStructure.coded_const_prefix: the restricted encode used for
response matching; the initial state carries the triggering request. -/
def coded_const_prefix (s : BasicStructure) (req : Bytes) : Bytes :=
  (prefixLoop s.parameters (EncodeState.mk [] [] (some req) true)).coded_message

/-- Reference fold that encodes every parameter of a list in order,
threading the accumulated message through the state. -/
def encodeAllParams : List Parameter → EncodeState → EncodeState
  | [], st => st
  | p :: rest, st =>
      encodeAllParams rest { st with coded_message := p.encode_into_pdu st }

/-- First pass of BasicStructure.convert_physical_to_internal: encode the
parameters in declaration order; the final parameter sees the structure's
end-of-PDU flag (the loop compares against parameters[-1]). -/
def encodeLoop : List Parameter → Bool → EncodeState → EncodeState
  | [], _, st => st
  | [p], eop, st =>
      let st1 := { st with is_end_of_pdu := eop }
      { st1 with coded_message := p.encode_into_pdu st1 }
  | p :: q :: rest, eop, st =>
      encodeLoop (q :: rest) eop { st with coded_message := p.encode_into_pdu st }

/-- Second pass of BasicStructure.convert_physical_to_internal: re-encode
only the length-key and table-key parameters, in declaration order. -/
def keyLoop : List Parameter → EncodeState → EncodeState
  | [], st => st
  | p :: rest, st =>
      if isKeyKind p.kind then
        keyLoop rest { st with coded_message := p.encode_into_pdu st }
      else keyLoop rest st

/-- The ljust step of convert_physical_to_internal: right-pad with zero
bytes up to the explicit byte size, when one is declared and the buffer
is shorter. -/
def applyPadding (byte_size : Option Nat) (msg : Bytes) : Bytes :=
  match byte_size with
  | some bs => if msg.length < bs then msg ++ List.replicate (bs - msg.length) 0 else msg
  | none => msg

inductive ValidationResult where
  | ok | warn | fatal
deriving DecidableEq

/-- BasicStructure._validate_coded_message: an explicit byte size mismatch
trips odxassert (fatal); otherwise a mismatch against the statically
inferred bit length only warns. -/
def validateCodedMessage (s : BasicStructure) (msg : Bytes) : ValidationResult :=
  match s.byte_size with
  | some bs => if msg.length = bs then ValidationResult.ok else ValidationResult.fatal
  | none =>
      match BasicStructure.get_static_bit_length s with
      | none => ValidationResult.ok
      | some bl => if msg.length * 8 = bl then ValidationResult.ok else ValidationResult.warn

/-- State after the first encode pass of convert_physical_to_internal,
starting from an empty message and the supplied values. -/
def firstPassState (s : BasicStructure) (vals : ParamValues) (trig : Option Bytes)
    (eop : Bool) : EncodeState :=
  encodeLoop s.parameters eop (EncodeState.mk [] vals trig false)

/-- State after padding and the key pass of convert_physical_to_internal. -/
def finalEncodeState (s : BasicStructure) (vals : ParamValues) (trig : Option Bytes)
    (eop : Bool) : EncodeState :=
  let st := firstPassState s vals trig eop
  keyLoop s.parameters { st with coded_message := applyPadding s.byte_size st.coded_message }

/-- BasicStructure.convert_physical_to_internal: reject non-dict values,
run both encode passes with padding, then validate; the boolean of the
result records whether the size warning was emitted. -/
def convert_physical_to_internal (s : BasicStructure) (pv : ParamValue)
    (trig : Option Bytes) (eop : Bool) : Except OdxError (Bytes × Bool) :=
  match pv with
  | ParamValue.dict vals =>
      let msg := (finalEncodeState s vals trig eop).coded_message
      match validateCodedMessage s msg with
      | ValidationResult.fatal => Except.error OdxError.assertionError
      | ValidationResult.warn => Except.ok (msg, true)
      | ValidationResult.ok => Except.ok (msg, false)
  | _ => Except.error OdxError.encodeError

/-- BasicStructure.convert_physical_to_bytes: reject non-dict values and a
nonzero bit position, then delegate to convert_physical_to_internal with
the enclosing encode state's triggering request and end-of-PDU flag. -/
def convert_physical_to_bytes (s : BasicStructure) (pvs : ParamValue)
    (es : EncodeState) (bit_position : Nat) : Except OdxError (Bytes × Bool) :=
  match pvs with
  | ParamValue.dict vals =>
      if bit_position ≠ 0 then Except.error OdxError.encodeError
      else convert_physical_to_internal s (ParamValue.dict vals) es.triggering_request
        es.is_end_of_pdu
  | _ => Except.error OdxError.encodeError

/-- Decode loop of BasicStructure.convert_bytes_to_physical: each decoded
value is recorded under the parameter's short name and the cursor becomes
the maximum of the running cursor and the reported one. -/
def decodeLoop : List Parameter → DecodeState → DecodeState
  | [], st => st
  | p :: rest, st =>
      let pr := p.decode_from_pdu st
      decodeLoop rest
        (DecodeState.mk st.coded_message
          (dictInsert st.parameter_values p.short_name pr.1)
          (max st.cursor_position pr.2))

/-- BasicStructure.convert_bytes_to_physical: a nonzero bit position is a
DecodeError; otherwise decode on a fresh inner state over the byte slice
from the cursor, returning the inner values and the advanced cursor. -/
def convert_bytes_to_physical (s : BasicStructure) (ds : DecodeState)
    (bit_position : Nat) : Except OdxError (ParamValues × Nat) :=
  if bit_position ≠ 0 then Except.error OdxError.decodeError
  else
    let byte_code := ds.coded_message.drop ds.cursor_position
    let inner := decodeLoop s.parameters (DecodeState.mk byte_code [] 0)
    Except.ok (inner.parameter_values, ds.cursor_position + inner.cursor_position)

/-- BasicStructure.encode: the public entry point; values are supplied as
keyword arguments, hence always a dict, and the structure is at the end
of the PDU. -/
def BasicStructure.encode (s : BasicStructure) (coded_request : Option Bytes)
    (params : ParamValues) : Except OdxError (Bytes × Bool) :=
  convert_physical_to_internal s (ParamValue.dict params) coded_request true

/-- BasicStructure.decode: decode from a dummy state at cursor 0; the
boolean records the warning emitted when the message is longer than what
was parsed. -/
def BasicStructure.decode (s : BasicStructure) (message : Bytes) :
    Except OdxError (ParamValues × Bool) :=
  match convert_bytes_to_physical s (DecodeState.mk message [] 0) 0 with
  | Except.error e => Except.error e
  | Except.ok (vals, cursor) =>
      if message.length ≠ cursor then Except.ok (vals, true) else Except.ok (vals, false)

/-- Parse a run of decimal digits as Python int() does for version pieces;
an empty or non-digit piece raises, modelled as none. -/
def parseNatAux : List Char → Nat → Option Nat
  | [], acc => some acc
  | c :: rest, acc =>
      if c.isDigit then parseNatAux rest (acc * 10 + (c.toNat - 48)) else none

/-- Parse one dotted-version component. -/
def parseNatDigits : List Char → Option Nat
  | [] => none
  | c :: rest => parseNatAux (c :: rest) 0

/-- Split a character list at every dot, keeping empty pieces. -/
def splitOnDot : List Char → List (List Char)
  | [] => [[]]
  | c :: rest =>
      if c = '.' then [] :: splitOnDot rest
      else
        match splitOnDot rest with
        | [] => [[c]]
        | seg :: segs => (c :: seg) :: segs

/-- The version function of database.py: tuple(map(int, v.split("."))),
with the ValueError of int() modelled as none. Version strings are
modelled as character lists so that parsing stays structurally
computable. -/
def version (v : List Char) : Option (List Nat) :=
  (splitOnDot v).mapM parseNatDigits

/-- Python tuple comparison, greater-or-equal: lexicographic with the
shorter tuple smaller when it is a proper prefix. -/
def tupleGE : List Nat → List Nat → Bool
  | _, [] => true
  | [], _ :: _ => false
  | a :: as1, b :: bs1 =>
      if b < a then true else if a < b then false else tupleGE as1 bs1

structure DiagLayerContainer where
  short_name : String
deriving DecidableEq

structure ComparamSubset where
  short_name : String
deriving DecidableEq

structure ComparamSpec where
  short_name : String
deriving DecidableEq

/-- Modelled from the spec: one already-parsed ODX document as the
database constructor consumes it (XML parsing and the zip container are
excluded collaborators); the fields are the MODEL-VERSION attribute and
the three elements the constructor looks up. -/
structure OdxDocument where
  model_version_attr : Option (List Char)
  dlc : Option DiagLayerContainer
  comparam_subset : Option ComparamSubset
  comparam_spec : Option ComparamSpec

/-- Accumulated collections while the constructor walks the documents. -/
structure LoadAcc where
  dlcs : List DiagLayerContainer
  comparam_subsets : List ComparamSubset
  comparam_specs : List ComparamSpec
deriving DecidableEq

/-- The default MODEL-VERSION used when the attribute is absent. -/
def defaultModelVersion : List Char := ['2', '.', '0']

/-- The threshold version string compared against in database.py. -/
def twoDotTwo : List Char := ['2', '.', '2']

/-- Per-document body of the Database constructor loop: collect the
DIAG-LAYER-CONTAINER, then either the COMPARAM-SUBSET (model version at
or above 2.2) or the COMPARAM-SPEC (below 2.2); a version parse failure
propagates int()'s ValueError, modelled as none. -/
def processDocument (acc : LoadAcc) (doc : OdxDocument) : Option LoadAcc :=
  match version (doc.model_version_attr.getD defaultModelVersion) with
  | none => none
  | some model_version =>
      let acc1 : LoadAcc :=
        match doc.dlc with
        | some d => { acc with dlcs := acc.dlcs ++ [d] }
        | none => acc
      if tupleGE model_version ((version twoDotTwo).getD []) then
        match doc.comparam_subset with
        | some sub => some { acc1 with comparam_subsets := acc1.comparam_subsets ++ [sub] }
        | none => some acc1
      else
        match doc.comparam_spec with
        | some sp => some { acc1 with comparam_specs := acc1.comparam_specs ++ [sp] }
        | none => some acc1

/-- Fold of processDocument over the document list. -/
def processDocuments : List OdxDocument → LoadAcc → Option LoadAcc
  | [], acc => some acc
  | d :: rest, acc =>
      match processDocument acc d with
      | none => none
      | some acc1 => processDocuments rest acc1

/-- Stable insertion used to model list.sort(key=short_name_as_key). -/
def insertByKey {α : Type} (key : α → String) (x : α) : List α → List α
  | [] => [x]
  | y :: ys => if key x ≤ key y then x :: y :: ys else y :: insertByKey key x ys

/-- Stable sort by a string key, modelling Python list.sort. -/
def sortByKey {α : Type} (key : α → String) : List α → List α
  | [] => []
  | x :: xs => insertByKey key x (sortByKey key xs)

/-- The observable outcome of the Database constructor: the three
collections and whether the refresh pipeline was run. -/
structure DatabaseState where
  diag_layer_containers : List DiagLayerContainer
  comparam_subsets : List ComparamSubset
  comparam_specs : List ComparamSpec
  refreshCalled : Bool
deriving DecidableEq

/-- Database.__init__: with neither argument, construct the empty database
and return before refresh; with both, raise TypeError; otherwise collect
the documents (zip reading and XML parsing abstracted to the supplied
parsed documents), sort the collections and run refresh. -/
def databaseInit (pdx_zip : Option (List OdxDocument))
    (odx_d_file_name : Option OdxDocument) : Except OdxError DatabaseState :=
  if pdx_zip.isNone && odx_d_file_name.isNone then
    Except.ok (DatabaseState.mk [] [] [] false)
  else if pdx_zip.isSome && odx_d_file_name.isSome then
    Except.error OdxError.typeError
  else
    let documents : List OdxDocument := pdx_zip.getD [] ++ odx_d_file_name.toList
    match processDocuments documents (LoadAcc.mk [] [] []) with
    | none => Except.error OdxError.valueError
    | some acc =>
        Except.ok
          (DatabaseState.mk
            (sortByKey DiagLayerContainer.short_name acc.dlcs)
            (sortByKey ComparamSubset.short_name acc.comparam_subsets)
            (sortByKey ComparamSpec.short_name acc.comparam_specs)
            true)

theorem prefixLoop_takeWhile (ps : List Parameter) (st : EncodeState) :
    prefixLoop ps st = encodeAllParams (ps.takeWhile fun p => isConstKind p.kind) st := by
  induction ps generalizing st with
  | nil => rfl
  | cons p rest ih =>
      by_cases h : isConstKind p.kind
      · simp only [prefixLoop, encodeAllParams, List.takeWhile_cons, h, if_true]
        exact ih _
      · simp only [prefixLoop, h, List.takeWhile_cons, Bool.false_eq_true, if_false]
        rfl

/-- Claim C7: coded_const_prefix encodes parameters in declaration order
and stops at the first parameter that is not one of the four
constant-like kinds, returning exactly the bytes accumulated from the
parameters before it. -/
theorem claim_C7_const_head (s : BasicStructure) (req : Bytes) :
    coded_const_prefix s req =
      (encodeAllParams (s.parameters.takeWhile fun p => isConstKind p.kind)
        (EncodeState.mk [] [] (some req) true)).coded_message := by
  unfold coded_const_prefix
  rw [prefixLoop_takeWhile]

/-- Claim C5: during decode, the cursor after each parameter is the
maximum of the running cursor and the cursor reported by that
parameter's decode, so the inner cursor is non-decreasing across the
whole parameter sequence. -/
theorem claim_C5_cursor_monotone :
    (∀ (p : Parameter) (rest : List Parameter) (st : DecodeState),
        decodeLoop (p :: rest) st =
          decodeLoop rest
            (DecodeState.mk st.coded_message
              (dictInsert st.parameter_values p.short_name (p.decode_from_pdu st).1)
              (max st.cursor_position (p.decode_from_pdu st).2)))
  ∧ (∀ (ps : List Parameter) (st : DecodeState),
        st.cursor_position ≤ (decodeLoop ps st).cursor_position) := by
  constructor
  · intro p rest st
    rfl
  · intro ps
    induction ps with
    | nil => intro st; exact Nat.le_refl _
    | cons p rest ih =>
        intro st
        have h1 : st.cursor_position ≤
            (DecodeState.mk st.coded_message
              (dictInsert st.parameter_values p.short_name (p.decode_from_pdu st).1)
              (max st.cursor_position (p.decode_from_pdu st).2)).cursor_position :=
          Nat.le_max_left _ _
        exact Nat.le_trans h1 (ih _)

/-- Claim C9: convert_bytes_to_physical at bit position 0 decodes on a
fresh inner state over the byte slice from the cursor whose value
mapping starts empty (the outer parameter values are invisible and the
outer state is untouched), and the returned cursor is the incoming
cursor plus the bytes the structure consumed. -/
theorem claim_C9_frame (s : BasicStructure) (msg : Bytes) (vals : ParamValues) (cpos : Nat) :
    convert_bytes_to_physical s (DecodeState.mk msg vals cpos) 0 =
      Except.ok
        ((decodeLoop s.parameters (DecodeState.mk (msg.drop cpos) [] 0)).parameter_values,
          cpos + (decodeLoop s.parameters (DecodeState.mk (msg.drop cpos) [] 0)).cursor_position) :=
  rfl

/-- Claim C10: the Database constructor with neither argument builds the
empty database without running refresh, and with both arguments raises
TypeError. -/
theorem claim_C10_ctor_guards :
    databaseInit none none = Except.ok (DatabaseState.mk [] [] [] false)
  ∧ ∀ (z : List OdxDocument) (f : OdxDocument),
      databaseInit (some z) (some f) = Except.error OdxError.typeError :=
  ⟨rfl, fun _ _ => rfl⟩

/-- A structure declaring an explicit byte size of 0 next to a parameter
of static size one byte: Python truthiness skips the explicit branch. -/
def zeroSizeStruct : BasicStructure :=
  BasicStructure.mk "T" [valueParameter "a" 1] (some 0)

/-- Claim C2 counterexample: with an explicit byte size of N = 0 the
structure does not report 8 times N; the falsy byte size falls through to
the parameter walk, which here yields 8 bits. -/
theorem claim_C2_cex :
    BasicStructure.get_static_bit_length zeroSizeStruct ≠ some 0 := by
  decide

/-- Claim C2 (amended): for every structure declaring a nonzero explicit
byte size N, get_static_bit_length returns 8 times N unconditionally,
regardless of the parameters. -/
theorem claim_C2_explicit_size (s : BasicStructure) (n : Nat)
    (hbs : s.byte_size = some n) (hn : n ≠ 0) :
    BasicStructure.get_static_bit_length s = some (8 * n) := by
  unfold BasicStructure.get_static_bit_length
  rw [hbs]
  simp [hn]

theorem claim_C2_witness :
    BasicStructure.get_static_bit_length (BasicStructure.mk "W" [] (some 3)) = some 24 :=
  claim_C2_explicit_size (BasicStructure.mk "W" [] (some 3)) 3 rfl (by decide)

/-- The spec scenario structure: a 1-byte constant 0x3E followed by a
1-byte constant 0x00, no explicit byte size. -/
def testerPresentStruct : BasicStructure :=
  BasicStructure.mk "S"
    [codedConstParameter "sid" [62], codedConstParameter "subfunc" [0]] none

/-- Claim C3 counterexample: decoding the bytes 3E 00 does not return the
empty mapping; the decode loop records a value for every parameter,
constants included. -/
theorem claim_C3_cex :
    ¬ ∃ w, BasicStructure.decode testerPresentStruct [62, 0] = Except.ok ([], w) := by
  intro hex
  obtain ⟨w, h⟩ := hex
  rw [show BasicStructure.decode testerPresentStruct [62, 0] =
      Except.ok ([("sid", ParamValue.nat 62), ("subfunc", ParamValue.nat 0)], false)
    from rfl] at h
  simp at h

/-- Claim C3 (amended): for the two-constant structure,
get_static_bit_length is 16 and encode of the empty mapping yields the
bytes 3E 00; decode of 3E 00 consumes both bytes with zero leftover but
returns the mapping recording both constant parameters (sid to 0x3E and
subfunc to 0x00), not the empty mapping. -/
theorem claim_C3_scenario :
    BasicStructure.get_static_bit_length testerPresentStruct = some 16
  ∧ BasicStructure.encode testerPresentStruct none [] = Except.ok ([62, 0], false)
  ∧ BasicStructure.decode testerPresentStruct [62, 0] =
      Except.ok ([("sid", ParamValue.nat 62), ("subfunc", ParamValue.nat 0)], false) :=
  ⟨rfl, rfl, rfl⟩

/-- Whether a ParamValue is the dictionary shape the structure codec
requires. -/
def isDictValue : ParamValue → Bool
  | ParamValue.dict _ => true
  | _ => false

/-- Claim C6: a nonzero bit position makes convert_bytes_to_physical fail
with DecodeError, and convert_physical_to_bytes fails with EncodeError
when the values are not a flat mapping or the bit position is nonzero;
no bytes or values are produced in these cases. -/
theorem claim_C6_alignment_errors :
    (∀ (s : BasicStructure) (ds : DecodeState) (bp : Nat), bp ≠ 0 →
        convert_bytes_to_physical s ds bp = Except.error OdxError.decodeError)
  ∧ (∀ (s : BasicStructure) (pv : ParamValue) (es : EncodeState) (bp : Nat),
        isDictValue pv = false →
        convert_physical_to_bytes s pv es bp = Except.error OdxError.encodeError)
  ∧ (∀ (s : BasicStructure) (vals : ParamValues) (es : EncodeState) (bp : Nat), bp ≠ 0 →
        convert_physical_to_bytes s (ParamValue.dict vals) es bp =
          Except.error OdxError.encodeError) := by
  refine ⟨?_, ?_, ?_⟩
  · intro s ds bp h
    unfold convert_bytes_to_physical
    simp [h]
  · intro s pv es bp h
    cases pv with
    | dict m => simp [isDictValue] at h
    | nat n => rfl
    | bytes bs => rfl
    | str t => rfl
  · intro s vals es bp h
    unfold convert_physical_to_bytes
    simp [h]

theorem claim_C6_witness :
    convert_bytes_to_physical (BasicStructure.mk "A" [] none) (DecodeState.mk [] [] 0) 3 =
      Except.error OdxError.decodeError
  ∧ convert_physical_to_bytes (BasicStructure.mk "A" [] none) (ParamValue.nat 5)
      (EncodeState.mk [] [] none true) 0 = Except.error OdxError.encodeError
  ∧ convert_physical_to_bytes (BasicStructure.mk "A" [] none) (ParamValue.dict [])
      (EncodeState.mk [] [] none true) 1 = Except.error OdxError.encodeError :=
  ⟨claim_C6_alignment_errors.1 _ _ 3 (by decide),
   claim_C6_alignment_errors.2.1 _ _ _ 0 rfl,
   claim_C6_alignment_errors.2.2 _ _ _ 1 (by decide)⟩

theorem keyLoop_id (ps : List Parameter) (st : EncodeState)
    (h : ∀ p ∈ ps, isKeyKind p.kind = false) : keyLoop ps st = st := by
  induction ps generalizing st with
  | nil => rfl
  | cons p rest ih =>
      have hp := h p (List.mem_cons_self p rest)
      simp only [keyLoop, hp, Bool.false_eq_true, if_false]
      exact ih st (fun q hq => h q (List.mem_cons_of_mem p hq))

/-- Claim C4: with an explicit byte size, a short first-pass buffer is
right-padded with zero bytes to exactly that size (stated for structures
without derived-key parameters, whose second pass leaves the buffer
unchanged); a final length different from the explicit size is fatal;
without an explicit size, a mismatch against the statically inferred bit
length only warns and the bytes are still returned. -/
theorem claim_C4_padding_validation :
    (∀ (s : BasicStructure) (vals : ParamValues) (trig : Option Bytes) (eop : Bool) (bs : Nat),
        s.byte_size = some bs →
        (∀ p ∈ s.parameters, isKeyKind p.kind = false) →
        (firstPassState s vals trig eop).coded_message.length < bs →
        convert_physical_to_internal s (ParamValue.dict vals) trig eop =
          Except.ok
            ((firstPassState s vals trig eop).coded_message ++
                List.replicate (bs - (firstPassState s vals trig eop).coded_message.length) 0,
              false))
  ∧ (∀ (s : BasicStructure) (vals : ParamValues) (trig : Option Bytes) (eop : Bool) (bs : Nat),
        s.byte_size = some bs →
        (finalEncodeState s vals trig eop).coded_message.length ≠ bs →
        convert_physical_to_internal s (ParamValue.dict vals) trig eop =
          Except.error OdxError.assertionError)
  ∧ (∀ (s : BasicStructure) (vals : ParamValues) (trig : Option Bytes) (eop : Bool) (bl : Nat),
        s.byte_size = none →
        BasicStructure.get_static_bit_length s = some bl →
        (finalEncodeState s vals trig eop).coded_message.length * 8 ≠ bl →
        convert_physical_to_internal s (ParamValue.dict vals) trig eop =
          Except.ok ((finalEncodeState s vals trig eop).coded_message, true)) := by
  refine ⟨?_, ?_, ?_⟩
  · intro s vals trig eop bs hbs hnk hlt
    have hfinmsg : (finalEncodeState s vals trig eop).coded_message =
        (firstPassState s vals trig eop).coded_message ++
          List.replicate (bs - (firstPassState s vals trig eop).coded_message.length) 0 := by
      simp only [finalEncodeState]
      rw [keyLoop_id _ _ hnk, hbs]
      simp only [applyPadding, hlt, if_true]
    have hlen : (finalEncodeState s vals trig eop).coded_message.length = bs := by
      rw [hfinmsg]
      simp only [List.length_append, List.length_replicate]
      omega
    rw [hfinmsg] at hlen
    simp only [convert_physical_to_internal, validateCodedMessage, hbs, hfinmsg, hlen, if_true]
  · intro s vals trig eop bs hbs hne
    simp only [convert_physical_to_internal, validateCodedMessage, hbs]
    simp [hne]
  · intro s vals trig eop bl hbs hbl hne
    simp only [convert_physical_to_internal, validateCodedMessage, hbs, hbl]
    simp [hne]

/-- Explicit size 4 with a single 1-byte constant: the pad scenario. -/
def padStruct : BasicStructure :=
  BasicStructure.mk "P" [codedConstParameter "c" [170]] (some 4)

/-- Explicit size 1 with a 2-byte constant: the fatal-size scenario. -/
def overStruct : BasicStructure :=
  BasicStructure.mk "O" [codedConstParameter "c" [1, 2]] (some 1)

/-- A parameter whose declared static bit length (16) disagrees with the
single byte its encoder appends, exercising the soft warning path. -/
def liarParam : Parameter :=
  Parameter.mk "x" none none (some 16) ParamKind.valueParam
    (fun st => st.coded_message ++ [7])
    (fun st => (ParamValue.nat 0, st.cursor_position))

/-- Structure without an explicit size whose static estimate is wrong. -/
def liarStruct : BasicStructure := BasicStructure.mk "L" [liarParam] none

theorem claim_C4_witness :
    convert_physical_to_internal padStruct (ParamValue.dict []) none true =
      Except.ok ([170, 0, 0, 0], false)
  ∧ convert_physical_to_internal overStruct (ParamValue.dict []) none true =
      Except.error OdxError.assertionError
  ∧ convert_physical_to_internal liarStruct (ParamValue.dict []) none true =
      Except.ok ([7], true) :=
  ⟨claim_C4_padding_validation.1 padStruct [] none true 4 rfl
      (by intro p hp; rcases List.mem_singleton.mp hp with rfl; rfl) (by decide),
   claim_C4_padding_validation.2.1 overStruct [] none true 1 rfl (by decide),
   claim_C4_padding_validation.2.2 liarStruct [] none true 16 rfl rfl (by decide)⟩

theorem processDocument_eq (acc : LoadAcc) (doc : OdxDocument) (mv : List Nat)
    (h : version (doc.model_version_attr.getD defaultModelVersion) = some mv) :
    processDocument acc doc =
      (if tupleGE mv [2, 2] then
        some (LoadAcc.mk (acc.dlcs ++ doc.dlc.toList)
          (acc.comparam_subsets ++ doc.comparam_subset.toList) acc.comparam_specs)
      else
        some (LoadAcc.mk (acc.dlcs ++ doc.dlc.toList) acc.comparam_subsets
          (acc.comparam_specs ++ doc.comparam_spec.toList))) := by
  have hv : (version twoDotTwo).getD [] = [2, 2] := rfl
  simp only [processDocument, h, hv]
  cases hd : doc.dlc <;> cases hsub : doc.comparam_subset <;> cases hsp : doc.comparam_spec <;>
    by_cases h2 : tupleGE mv [2, 2] <;>
      simp [h2, Option.toList]

/-- Claim C8: per loaded document, the model-version threshold 2.2 picks
the communication-parameter container: at or above 2.2 the document
contributes its COMPARAM-SUBSET and its COMPARAM-SPEC is ignored; below
2.2, including the default 2.0 used when the attribute is absent, it
contributes its COMPARAM-SPEC and its COMPARAM-SUBSET is ignored. -/
theorem claim_C8_version_threshold :
    (∀ (acc : LoadAcc) (doc : OdxDocument) (mvs : List Char) (mv : List Nat),
        doc.model_version_attr = some mvs → version mvs = some mv →
        tupleGE mv [2, 2] = true →
        processDocument acc doc = some
          (LoadAcc.mk (acc.dlcs ++ doc.dlc.toList)
            (acc.comparam_subsets ++ doc.comparam_subset.toList)
            acc.comparam_specs))
  ∧ (∀ (acc : LoadAcc) (doc : OdxDocument) (mvs : List Char) (mv : List Nat),
        doc.model_version_attr = some mvs → version mvs = some mv →
        tupleGE mv [2, 2] = false →
        processDocument acc doc = some
          (LoadAcc.mk (acc.dlcs ++ doc.dlc.toList)
            acc.comparam_subsets
            (acc.comparam_specs ++ doc.comparam_spec.toList)))
  ∧ (∀ (acc : LoadAcc) (doc : OdxDocument),
        doc.model_version_attr = none →
        processDocument acc doc = some
          (LoadAcc.mk (acc.dlcs ++ doc.dlc.toList)
            acc.comparam_subsets
            (acc.comparam_specs ++ doc.comparam_spec.toList))) := by
  refine ⟨?_, ?_, ?_⟩
  · intro acc doc mvs mv h1 h2 h3
    have hg : version (doc.model_version_attr.getD defaultModelVersion) = some mv := by
      rw [h1, Option.getD_some, h2]
    rw [processDocument_eq acc doc mv hg, h3]
    simp
  · intro acc doc mvs mv h1 h2 h3
    have hg : version (doc.model_version_attr.getD defaultModelVersion) = some mv := by
      rw [h1, Option.getD_some, h2]
    rw [processDocument_eq acc doc mv hg, h3]
    simp
  · intro acc doc h1
    have hg : version (doc.model_version_attr.getD defaultModelVersion) = some [2, 0] := by
      rw [h1, Option.getD_none]
      exact rfl
    rw [processDocument_eq acc doc [2, 0] hg]
    simp [show tupleGE [2, 0] [2, 2] = false from rfl]

/-- A document declaring MODEL-VERSION 2.2 with both container elements. -/
def docAtThreshold : OdxDocument :=
  OdxDocument.mk (some ['2', '.', '2']) none (some (ComparamSubset.mk "sub"))
    (some (ComparamSpec.mk "spec"))

/-- A document declaring MODEL-VERSION 2.1 with both container elements. -/
def docBelowThreshold : OdxDocument :=
  OdxDocument.mk (some ['2', '.', '1']) none (some (ComparamSubset.mk "sub"))
    (some (ComparamSpec.mk "spec"))

/-- A document without a MODEL-VERSION attribute. -/
def docNoVersion : OdxDocument :=
  OdxDocument.mk none none (some (ComparamSubset.mk "sub")) (some (ComparamSpec.mk "spec"))

theorem claim_C8_witness :
    processDocument (LoadAcc.mk [] [] []) docAtThreshold =
      some (LoadAcc.mk [] [ComparamSubset.mk "sub"] [])
  ∧ processDocument (LoadAcc.mk [] [] []) docBelowThreshold =
      some (LoadAcc.mk [] [] [ComparamSpec.mk "spec"])
  ∧ processDocument (LoadAcc.mk [] [] []) docNoVersion =
      some (LoadAcc.mk [] [] [ComparamSpec.mk "spec"]) :=
  ⟨claim_C8_version_threshold.1 (LoadAcc.mk [] [] []) docAtThreshold
      ['2', '.', '2'] [2, 2] rfl rfl rfl,
   claim_C8_version_threshold.2.1 (LoadAcc.mk [] [] []) docBelowThreshold
      ['2', '.', '1'] [2, 1] rfl rfl rfl,
   claim_C8_version_threshold.2.2 (LoadAcc.mk [] [] []) docNoVersion rfl⟩

/-- Concatenation of a list of byte strings. -/
def bytesConcat : List Bytes → Bytes
  | [] => []
  | b :: rest => b ++ bytesConcat rest

/-- The round-trip family: one fixed-width value parameter per item, the
width being the length of that item's bytes, no explicit byte size. -/
def valueStructure (items : List (String × Bytes)) : BasicStructure :=
  BasicStructure.mk "S" (items.map fun it => valueParameter it.1 it.2.length) none

/-- The valid value mapping matching valueStructure: each parameter name
bound to its byte string, in declaration order. -/
def itemsDict (items : List (String × Bytes)) : ParamValues :=
  items.map fun it => (it.1, ParamValue.bytes it.2)

theorem bytesConcat_length (ls : List Bytes) :
    (bytesConcat ls).length = (ls.map List.length).sum := by
  induction ls with
  | nil => rfl
  | cons b rest ih => simp [bytesConcat, ih]

theorem take_len_append (a b : Bytes) : (a ++ b).take a.length = a := by
  induction a with
  | nil => rfl
  | cons x xs ih => simp [List.length_cons, List.cons_append, List.take_succ_cons, ih]

theorem drop_len_append (a b : Bytes) : (a ++ b).drop a.length = b := by
  induction a with
  | nil => rfl
  | cons x xs ih => simp [List.length_cons, List.cons_append, List.drop_succ_cons, ih]

theorem dictInsert_append (m : ParamValues) (k : String) (v : ParamValue)
    (h : k ∉ m.map Prod.fst) : dictInsert m k v = m ++ [(k, v)] := by
  induction m with
  | nil => rfl
  | cons kv rest ih =>
      obtain ⟨k1, v1⟩ := kv
      simp only [List.map_cons, List.mem_cons] at h
      push_neg at h
      simp only [dictInsert, List.cons_append]
      rw [if_neg (fun he => h.1 he.symm), ih h.2]

theorem lookup_itemsDict (items : List (String × Bytes))
    (hnodup : (items.map Prod.fst).Nodup) :
    ∀ n bs, (n, bs) ∈ items → lookupAssoc (itemsDict items) n = some (ParamValue.bytes bs) := by
  induction items with
  | nil => intro n bs h; cases h
  | cons it rest ih =>
      obtain ⟨m, cs⟩ := it
      simp only [List.map_cons, List.nodup_cons] at hnodup
      intro n bs h
      rcases List.mem_cons.mp h with heq | hmem
      · injection heq with h1 h2
        subst h1; subst h2
        simp [itemsDict, lookupAssoc]
      · have hn : n ∈ rest.map Prod.fst := by
          have := List.mem_map_of_mem Prod.fst hmem
          simpa using this
        have hmn : m ≠ n := fun he => hnodup.1 (he ▸ hn)
        simp only [itemsDict, List.map_cons, lookupAssoc]
        rw [if_neg hmn]
        exact ih hnodup.2 n bs hmem

theorem valueParameter_encode_eq (name : String) (width : Nat) (st : EncodeState) (bs : Bytes)
    (h : lookupAssoc st.parameter_values name = some (ParamValue.bytes bs)) :
    (valueParameter name width).encode_into_pdu st = st.coded_message ++ bs := by
  show (match lookupAssoc st.parameter_values name with
        | some (ParamValue.bytes bs) => st.coded_message ++ bs
        | _ => st.coded_message ++ List.replicate width 0) = st.coded_message ++ bs
  rw [h]

theorem valueParameter_decode_eq (name : String) (width : Nat) (st : DecodeState) :
    (valueParameter name width).decode_from_pdu st =
      (ParamValue.bytes ((st.coded_message.drop st.cursor_position).take width),
        st.cursor_position + width) := rfl

theorem encodeLoop_values (items : List (String × Bytes)) (v : ParamValues)
    (hv : ∀ it ∈ items, lookupAssoc v it.1 = some (ParamValue.bytes it.2)) :
    ∀ (eop iep : Bool) (msg0 : Bytes) (trig : Option Bytes),
      (encodeLoop (items.map fun it => valueParameter it.1 it.2.length) eop
        (EncodeState.mk msg0 v trig iep)).coded_message =
          msg0 ++ bytesConcat (items.map Prod.snd) := by
  induction items with
  | nil =>
      intro eop iep msg0 trig
      simp [encodeLoop, bytesConcat]
  | cons it rest ih =>
      intro eop iep msg0 trig
      obtain ⟨n, bs⟩ := it
      have hl : lookupAssoc v n = some (ParamValue.bytes bs) :=
        hv (n, bs) (List.mem_cons_self _ _)
      cases rest with
      | nil =>
          simp only [List.map_cons, List.map_nil, encodeLoop, bytesConcat]
          rw [valueParameter_encode_eq n bs.length _ bs hl]
          simp
      | cons it2 rest2 =>
          simp only [List.map_cons, encodeLoop]
          rw [valueParameter_encode_eq n bs.length _ bs hl]
          have hrec := ih (fun q hq => hv q (List.mem_cons_of_mem _ hq)) eop iep (msg0 ++ bs) trig
          simp only [List.map_cons] at hrec
          rw [hrec]
          simp [bytesConcat, List.append_assoc]

theorem staticLengthLoop_values (items : List (String × Bytes)) :
    ∀ c : Nat,
      staticLengthLoop (items.map fun it => valueParameter it.1 it.2.length) c c =
        some (((c + 8 * ((items.map Prod.snd).map List.length).sum + 7) / 8) * 8) := by
  induction items with
  | nil => intro c; simp [staticLengthLoop]
  | cons it rest ih =>
      intro c
      obtain ⟨n, bs⟩ := it
      simp only [List.map_cons, staticLengthLoop,
        show (valueParameter n bs.length).get_static_bit_length = some (8 * bs.length) from rfl,
        show (valueParameter n bs.length).byte_position = none from rfl]
      rw [show max c (c + 8 * bs.length) = c + 8 * bs.length from by omega]
      rw [ih (c + 8 * bs.length)]
      congr 1
      simp only [List.map_cons, List.sum_cons]
      omega

theorem decodeLoop_values (items : List (String × Bytes)) :
    ∀ (done : ParamValues) (msg : Bytes) (c : Nat),
      msg.drop c = bytesConcat (items.map Prod.snd) →
      (items.map Prod.fst).Nodup →
      (∀ n ∈ items.map Prod.fst, n ∉ done.map Prod.fst) →
      decodeLoop (items.map fun it => valueParameter it.1 it.2.length)
          (DecodeState.mk msg done c) =
        DecodeState.mk msg (done ++ itemsDict items)
          (c + ((items.map Prod.snd).map List.length).sum) := by
  induction items with
  | nil =>
      intro done msg c h1 h2 h3
      simp [decodeLoop, itemsDict]
  | cons it rest ih =>
      intro done msg c h1 h2 h3
      obtain ⟨n, bs⟩ := it
      simp only [List.map_cons, List.nodup_cons] at h2
      simp only [List.map_cons, bytesConcat] at h1
      have htake : (msg.drop c).take bs.length = bs := by
        rw [h1]; exact take_len_append bs _
      have hdrop : msg.drop (c + bs.length) = bytesConcat (rest.map Prod.snd) := by
        rw [← List.drop_drop, h1]
        exact drop_len_append bs _
      have hdone : dictInsert done n (ParamValue.bytes bs) = done ++ [(n, ParamValue.bytes bs)] :=
        dictInsert_append done n _ (h3 n (List.mem_cons_self _ _))
      have h3' : ∀ m ∈ rest.map Prod.fst,
          m ∉ (done ++ [(n, ParamValue.bytes bs)]).map Prod.fst := by
        intro m hm hmem
        rw [List.map_append] at hmem
        rcases List.mem_append.mp hmem with hin | hin
        · exact h3 m (List.mem_cons_of_mem _ hm) hin
        · simp only [List.map_cons, List.map_nil, List.mem_singleton] at hin
          exact h2.1 (hin ▸ hm)
      simp only [List.map_cons, decodeLoop, valueParameter_decode_eq,
        show (valueParameter n bs.length).short_name = n from rfl]
      rw [htake, hdone, show max c (c + bs.length) = c + bs.length from by omega]
      rw [ih (done ++ [(n, ParamValue.bytes bs)]) msg (c + bs.length) hdrop h2.2 h3']
      simp only [itemsDict, List.map_cons, List.sum_cons, List.append_assoc,
        List.cons_append, List.nil_append, DecodeState.mk.injEq, true_and]
      omega

theorem convert_internal_ok (s : BasicStructure) (vals : ParamValues) (trig : Option Bytes)
    (eop : Bool) (bl : Nat)
    (hbs : s.byte_size = none)
    (hbl : BasicStructure.get_static_bit_length s = some bl)
    (hlen : (finalEncodeState s vals trig eop).coded_message.length * 8 = bl) :
    convert_physical_to_internal s (ParamValue.dict vals) trig eop =
      Except.ok ((finalEncodeState s vals trig eop).coded_message, false) := by
  simp only [convert_physical_to_internal, validateCodedMessage, hbs, hbl, hlen, if_true]

/-- Claim C1: for every structure of the fixed-width value-parameter
family (no variable-length and no implicit-value parameters) and every
valid flat name-to-value mapping — distinct names bound, in declaration
order, to byte strings of the declared widths — encode succeeds without a
warning and decode of the encoded bytes returns exactly the supplied
mapping, consuming the whole message. -/
theorem claim_C1_round_trip (items : List (String × Bytes))
    (hnodup : (items.map Prod.fst).Nodup) :
    BasicStructure.encode (valueStructure items) none (itemsDict items) =
      Except.ok (bytesConcat (items.map Prod.snd), false)
  ∧ BasicStructure.decode (valueStructure items) (bytesConcat (items.map Prod.snd)) =
      Except.ok (itemsDict items, false) := by
  have hlook : ∀ it ∈ items, lookupAssoc (itemsDict items) it.1 = some (ParamValue.bytes it.2) := by
    intro it hit
    obtain ⟨n, bs⟩ := it
    exact lookup_itemsDict items hnodup n bs hit
  have hkinds : ∀ p ∈ (valueStructure items).parameters, isKeyKind p.kind = false := by
    intro p hp
    simp only [valueStructure] at hp
    obtain ⟨it, hit, rfl⟩ := List.mem_map.mp hp
    rfl
  have hfirstmsg :
      (firstPassState (valueStructure items) (itemsDict items) none true).coded_message =
        bytesConcat (items.map Prod.snd) := by
    have h := encodeLoop_values items (itemsDict items) hlook true false [] none
    simpa [firstPassState, valueStructure] using h
  have hfinalmsg :
      (finalEncodeState (valueStructure items) (itemsDict items) none true).coded_message =
        bytesConcat (items.map Prod.snd) := by
    simp only [finalEncodeState]
    rw [keyLoop_id _ _ hkinds]
    simpa [applyPadding, valueStructure] using hfirstmsg
  have hstatic : BasicStructure.get_static_bit_length (valueStructure items) =
      some (8 * ((items.map Prod.snd).map List.length).sum) := by
    have h0 := staticLengthLoop_values items 0
    rw [show ((0 + 8 * ((items.map Prod.snd).map List.length).sum + 7) / 8) * 8 =
        8 * ((items.map Prod.snd).map List.length).sum from by omega] at h0
    simpa [BasicStructure.get_static_bit_length, valueStructure] using h0
  have hlen :
      (finalEncodeState (valueStructure items) (itemsDict items) none true).coded_message.length * 8 =
        8 * ((items.map Prod.snd).map List.length).sum := by
    rw [hfinalmsg, bytesConcat_length, Nat.mul_comm]
  have hmlen : (bytesConcat (items.map Prod.snd)).length =
      ((items.map Prod.snd).map List.length).sum := bytesConcat_length _
  have hdec := decodeLoop_values items [] (bytesConcat (items.map Prod.snd)) 0
    (by simp) hnodup (by simp)
  have hcbp : convert_bytes_to_physical (valueStructure items)
      (DecodeState.mk (bytesConcat (items.map Prod.snd)) [] 0) 0 =
      Except.ok (itemsDict items, ((items.map Prod.snd).map List.length).sum) := by
    unfold convert_bytes_to_physical
    rw [if_neg (fun h => h rfl)]
    simp only [valueStructure, List.drop_zero]
    simp only [valueStructure] at hdec
    rw [hdec]
    simp
  constructor
  · unfold BasicStructure.encode
    rw [convert_internal_ok (valueStructure items) (itemsDict items) none true
      (8 * ((items.map Prod.snd).map List.length).sum) rfl hstatic hlen]
    rw [hfinalmsg]
  · unfold BasicStructure.decode
    rw [hcbp]
    simp [hmlen]

theorem claim_C1_witness :
    BasicStructure.encode (valueStructure [("a", [1]), ("b", [2, 3])]) none
      (itemsDict [("a", [1]), ("b", [2, 3])]) = Except.ok ([1, 2, 3], false)
  ∧ BasicStructure.decode (valueStructure [("a", [1]), ("b", [2, 3])]) [1, 2, 3] =
      Except.ok (itemsDict [("a", [1]), ("b", [2, 3])], false) := by
  have h := claim_C1_round_trip [("a", [1]), ("b", [2, 3])] (by decide)
  exact ⟨h.1, h.2⟩
